import Mathlib

/-!
# Verification of `pre-commit-hook-ensure-sops`

A shallow embedding of `pre_commit_hook_ensure_sops/__main__.py` and proofs
about it.  Parsed YAML/JSON documents are modelled by the recursive type
`Value`; Python's dynamic operations (`in`, iteration, subscription, `==`)
are modelled by explicit functions returning `Except PyExn _` where the
Python operation can raise.  File reading + parsing is abstracted by its
outcome: `check_file` receives the result that `open` + `loader_func` would
have produced for the input file, and the state of the fixed `.sops.yaml`
configuration file is a separate parameter.
-/

namespace EnsureSops

/-- A parsed YAML/JSON value: the structured values produced by
`json.load` / `yaml.load` (with `typ="safe"`).  Mappings are modelled as
association lists in insertion order, matching Python dict iteration
order; keys of parsed mappings are strings. -/
inductive Value where
  | str  (s : String)
  | num  (n : Int)
  | bool (b : Bool)
  | null
  | list (xs : List Value)
  | dict (kvs : List (String × Value))
  deriving Repr

/-- Python exceptions that the statements in `__main__.py` can raise.
`parserError` is `ruamel.yaml.parser.ParserError` — the only exception
class the two `except ParserError:` clauses catch.  `scannerError`
stands for the other ruamel YAML errors, and `jsonDecodeError` for
`json.JSONDecodeError`; neither is a `ParserError`. -/
inductive PyExn where
  | parserError
  | scannerError
  | jsonDecodeError
  | fileNotFoundError
  | typeError
  | keyError
  | indexError
  deriving Repr, DecidableEq

/-- Which exceptions the `except ParserError:` clauses catch. -/
def isParserError : PyExn → Bool
  | .parserError => true
  | _ => false

/-- Python `v == s` for a string literal `s` on the right: true exactly for
an equal string; values of other types never equal a string. -/
def pyEqStr (v : Value) (s : String) : Bool :=
  match v with
  | .str t => t == s
  | _ => false

/-- Python negative-index resolution for sequences of length `len`. -/
def pyNegIdx (len : Nat) (i : Int) : Option Nat :=
  if 0 ≤ i then (if i < len then some i.toNat else none)
  else (if 0 ≤ i + len then some (i + len).toNat else none)

/-- Python subscription `v[k]`, for the value shapes occurring here:
mapping lookup for string keys (absent key: `KeyError`), character
indexing for strings, element indexing for lists; scalar receivers or
keys of an unusable type raise `TypeError`. -/
def pyIndex : Value → Value → Except PyExn Value
  | .dict kvs, .str k =>
    match kvs.find? (fun p => p.1 == k) with
    | some p => .ok p.2
    | none => .error .keyError
  | .dict _, .list _ => .error .typeError
  | .dict _, .dict _ => .error .typeError
  | .dict _, _ => .error .keyError
  | .str t, .num i =>
    match pyNegIdx t.length i with
    | some j => .ok (.str (String.mk [t.data.getD j ' ']))
    | none => .error .indexError
  | .str t, .bool b =>
    match pyNegIdx t.length (if b then 1 else 0) with
    | some j => .ok (.str (String.mk [t.data.getD j ' ']))
    | none => .error .indexError
  | .str _, _ => .error .typeError
  | .list xs, .num i =>
    match pyNegIdx xs.length i with
    | some j => .ok (xs.getD j .null)
    | none => .error .indexError
  | .list xs, .bool b =>
    match pyNegIdx xs.length (if b then 1 else 0) with
    | some j => .ok (xs.getD j .null)
    | none => .error .indexError
  | .list _, _ => .error .typeError
  | _, _ => .error .typeError

/-- Substring test on character lists: does `pat` occur contiguously in
the second argument?  Models Python's `in` on strings. -/
def charsContains (pat : List Char) : List Char → Bool
  | [] => pat.isEmpty
  | c :: rest => pat.isPrefixOf (c :: rest) || charsContains pat rest

/-- Python `s in doc` for a string `s`: key membership for mappings,
substring test for strings, element membership for lists; `TypeError`
for the non-iterable scalars. -/
def pyContains (doc : Value) (s : String) : Except PyExn Bool :=
  match doc with
  | .dict kvs => .ok (kvs.any (fun p => p.1 == s))
  | .str t => .ok (charsContains s.data t.data)
  | .list xs => .ok (xs.any (fun v => pyEqStr v s))
  | _ => .error .typeError

/-- Python `for k in doc`: the sequence of items the loop binds —
keys for mappings, one-character strings for strings, elements for
lists; `TypeError` for the non-iterable scalars. -/
def pyIter : Value → Except PyExn (List Value)
  | .dict kvs => .ok (kvs.map (fun p => Value.str p.1))
  | .str t => .ok (t.data.map (fun c => Value.str (String.mk [c])))
  | .list xs => .ok xs
  | _ => .error .typeError

mutual

/-- `validate_enc` from `__main__.py`: a string passes if it is empty or
starts with `ENC[`; lists and dicts pass iff all elements / values pass
recursively; every other type fails.  (The Python function returns `None`
rather than `False` for a non-matching string, but it is only ever used
for its truthiness, so `Bool` is faithful.) -/
def validate_enc : Value → Bool
  | .str s => s.data.isEmpty || "ENC[".data.isPrefixOf s.data
  | .list xs => validate_enc_all xs
  | .dict kvs => validate_enc_values kvs
  | _ => false

def validate_enc_all : List Value → Bool
  | [] => true
  | v :: vs => validate_enc v && validate_enc_all vs

def validate_enc_values : List (String × Value) → Bool
  | [] => true
  | p :: ps => validate_enc p.2 && validate_enc_values ps

end

/-! ## The key-filter configuration loader

`check_file` reads the fixed file `.sops.yaml` with `yaml.load` and
extracts `config["creation_rules"][0]["encrypted_regex"]`, then applies
`.strip("'$^()")` and `.split("|")`.  The `with open(...)` plus the
extraction are wrapped in `try: ... except Exception: pass`, while the
`yaml.load` alone additionally has an inner
`except ParserError: return False, f"{sops_config} is not readable"`. -/

/-- The fixed configuration path used by `check_file`. -/
def sops_config : String := ".sops.yaml"

/-- The observable state of the `.sops.yaml` configuration file:
either opening it raises (`absent`), or it opens and `yaml.load`
produces the given outcome. -/
inductive ConfigFile where
  | absent
  | present (parse : Except PyExn Value)

/-- The character set of the Python call `.strip("'$^()")`. -/
def stripSet : List Char := ['\'', '$', '^', '(', ')']

/-- Python `s.strip("'$^()")`: remove the longest run of characters
drawn from `stripSet` from both ends. -/
def pyStrip (cs : List Char) : List Char :=
  (((cs.dropWhile (stripSet.contains ·)).reverse).dropWhile
      (stripSet.contains ·)).reverse

/-- Python `s.split("|")`: split on every occurrence of the pipe
character; always returns at least one (possibly empty) piece. -/
def splitPipe : List Char → List (List Char)
  | [] => [[]]
  | c :: cs =>
    match splitPipe cs with
    | [] => [[]]
    | g :: gs => if c = '|' then [] :: g :: gs else (c :: g) :: gs

/-- `.strip("'$^()").split("|")` on a regex string, producing the list
of key patterns `check_file` matches top-level keys against. -/
def stripAndSplit (s : String) : List String :=
  (splitPipe (pyStrip s.data)).map String.mk

/-- The expression `config["creation_rules"][0]["encrypted_regex"]`,
followed by the requirement that the result is a string (anything else
has no `.strip` attribute).  `none` means some step raised; all such
exceptions are swallowed by the surrounding `except Exception: pass`. -/
def extractRegexStr (config : Value) : Option String :=
  match pyIndex config (.str "creation_rules") with
  | .error _ => none
  | .ok cr =>
    match pyIndex cr (.num 0) with
    | .error _ => none
    | .ok first =>
      match pyIndex first (.str "encrypted_regex") with
      | .error _ => none
      | .ok er =>
        match er with
        | .str s => some s
        | _ => none

/-- The whole configuration-loading block of `check_file`.  A `.error`
result is an early `return` from `check_file` (the verdict
`(False, ".sops.yaml is not readable")` produced when `yaml.load` on the
opened configuration raises a `ParserError`); a `.ok` result is the
final value of `encrypted_regex` ( `[]` when no filter was obtained). -/
def loadEncryptedRegex : ConfigFile → Except (Bool × String) (List String)
  | .absent => .ok []
  | .present (.error e) =>
    if isParserError e then .error (false, sops_config ++ " is not readable")
    else .ok []
  | .present (.ok config) =>
    match extractRegexStr config with
    | none => .ok []
    | some s => .ok (stripAndSplit s)

/-! ## `check_file` -/

/-- The loop
`for k in doc: if k != "sops" and (k in encrypted_regex or not encrypted_regex): if not validate_enc(doc[k]): invalid_keys.append(k)`
over the already-computed iteration items `ks`, collecting the invalid
keys in iteration order.  `doc[k]` can raise (it is only evaluated for
keys that pass the filter). -/
def collectInvalid (doc : Value) (er : List String) :
    List Value → Except PyExn (List Value)
  | [] => .ok []
  | k :: ks =>
    if !pyEqStr k "sops" && (er.any (fun p => pyEqStr k p) || er.isEmpty) then
      match pyIndex doc k with
      | .error e => .error e
      | .ok v =>
        match collectInvalid doc er ks with
        | .error e => .error e
        | .ok rest => .ok (if validate_enc v then rest else k :: rest)
    else collectInvalid doc er ks

/-- `','.join(invalid_keys)` requires every collected key to be a
string; a non-string element raises `TypeError`. -/
def joinKeys : List Value → Except PyExn (List String)
  | [] => .ok []
  | .str s :: rest =>
    match joinKeys rest with
    | .ok l => .ok (s :: l)
    | .error e => .error e
  | _ :: _ => .error .typeError

/-- `check_file` from `__main__.py`.

`fileRead` is the outcome of `open(filename)` + `loader_func(f)` for the
input file (for paths ending in `.yaml` the loader is ruamel's
`yaml.load`, whose parse failures are `parserError` / `scannerError`;
for every other path it is `json.load`, whose parse failures are
`jsonDecodeError`; a file that cannot be opened gives
`fileNotFoundError`).  Only a `parserError` is converted into the
"Not valid JSON or YAML" verdict; every other exception propagates
(`.error`).  `cfg` is the state of `.sops.yaml`. -/
def check_file (filename : String) (fileRead : Except PyExn Value)
    (cfg : ConfigFile) : Except PyExn (Bool × String) :=
  match fileRead with
  | .error e =>
    if isParserError e then
      .ok (false, filename ++ ": Not valid JSON or YAML, is not properly encrypted")
    else .error e
  | .ok doc =>
    match pyContains doc "sops" with
    | .error e => .error e
    | .ok hasSops =>
      if !hasSops then
        .ok (false, filename ++ ": sops metadata key not found in file, is not properly encrypted")
      else
        match loadEncryptedRegex cfg with
        | .error verdict => .ok verdict
        | .ok encrypted_regex =>
          match pyIter doc with
          | .error e => .error e
          | .ok ks =>
            match collectInvalid doc encrypted_regex ks with
            | .error e => .error e
            | .ok invalid_keys =>
              if invalid_keys.isEmpty then
                .ok (true, filename ++ ": Valid encryption")
              else
                match joinKeys invalid_keys with
                | .error e => .error e
                | .ok names =>
                  .ok (false, filename ++ ": Unencrypted values found nested under keys: "
                        ++ String.intercalate "," names)

/-! ## `main`

`main` parses one-or-more positional filenames, runs `check_file` on
each, collects the messages of failing files, prints them
newline-joined, and returns `1` if any failed, else `0`.  An exception
raised by any `check_file` call propagates out of `main` (aborting the
remaining files).  We model the already-parsed filename list together
with each file's read outcome; the result is the list of printed lines
and the return code. -/

/-- The `for f in args.filenames` loop of `main`: the list of
`failed_messages`. -/
def runFiles (cfg : ConfigFile) :
    List (String × Except PyExn Value) → Except PyExn (List String)
  | [] => .ok []
  | fr :: rest =>
    match check_file fr.1 fr.2 cfg with
    | .error e => .error e
    | .ok v =>
      match runFiles cfg rest with
      | .error e => .error e
      | .ok tail => .ok (if v.1 then tail else v.2 :: tail)

/-- `main` from `__main__.py`: the printed stdout lines (the
`failed_messages`, printed newline-joined, nothing when empty) and the
return code. -/
def main (cfg : ConfigFile) (files : List (String × Except PyExn Value)) :
    Except PyExn (List String × Nat) :=
  match runFiles cfg files with
  | .error e => .error e
  | .ok failed => .ok (failed, if failed.isEmpty then 0 else 1)

/-- A well-shaped `.sops.yaml` document carrying the given
`encrypted_regex` string. -/
def mkSopsConfig (regex : String) : Value :=
  .dict [("creation_rules", .list [.dict [("encrypted_regex", .str regex)]])]

/-! ## Specification-side definitions

These restate, in the specification's own words, what some claims say
the program computes; they are compared with the source-derived
definitions above. -/

/-- The leaf rule as the specification words it: a string leaf passes if
it is empty or begins with the ciphertext marker prefix `ENC[`; a
sequence passes iff every element recursively passes; a mapping passes
iff every value recursively passes; any other scalar fails (there is no
rule for numbers, booleans or null). -/
inductive SpecEnc : Value → Prop where
  | empty_str : SpecEnc (.str "")
  | marked_str (s : String) : (∃ rest, s = "ENC[" ++ rest) → SpecEnc (.str s)
  | seq (xs : List Value) : (∀ v ∈ xs, SpecEnc v) → SpecEnc (.list xs)
  | map (kvs : List (String × Value)) : (∀ p ∈ kvs, SpecEnc p.2) → SpecEnc (.dict kvs)

/-- Configuration states whose failure is swallowed by
`except Exception: pass`: the file cannot be opened, `yaml.load` raises
something other than a `ParserError`, or the parsed document does not
have the expected shape. -/
def ConfigSwallowed : ConfigFile → Prop
  | .absent => True
  | .present (.error e) => isParserError e = false
  | .present (.ok config) => extractRegexStr config = none

/-- Replace the value stored under key `k` of a mapping (keys are
untouched). -/
def setKey (kvs : List (String × Value)) (k : String) (v : Value) :
    List (String × Value) :=
  kvs.map (fun p => if p.1 == k then (p.1, v) else p)

/-- The loop condition of `check_file` as a predicate on one mapping
entry: the key is not the metadata key, it passes the filter (literal
membership in `encrypted_regex`, or an empty filter), and its value
fails `validate_enc`. -/
def isInvalidEntry (er : List String) (p : String × Value) : Bool :=
  !(p.1 == "sops") && (er.any (fun q => p.1 == q) || er.isEmpty) && !validate_enc p.2

/-- The expected stdout lines of `main`: the verdict message of every
file whose `check_file` verdict is failing. -/
def failedMessages (cfg : ConfigFile)
    (files : List (String × Except PyExn Value)) : List String :=
  files.filterMap (fun fr =>
    match check_file fr.1 fr.2 cfg with
    | .ok (false, m) => some m
    | _ => none)

/-- `p1 + '|' + ... + '|' + pn`: the pipe-joined pattern list of the
external tool's `encrypted_regex` convention. -/
def pipeJoin : List String → String
  | [] => ""
  | [p] => p
  | p :: q :: rest => p ++ "|" ++ pipeJoin (q :: rest)

/-- Side conditions under which the wrapper `^( ... )$` is the only
text removed by `.strip("'$^()")`: the pattern list is nonempty, every
pattern is nonempty and pipe-free, the first pattern does not begin
with a character of the stripped set and the last one does not end with
one. -/
def goodPatterns (ps : List String) : Bool :=
  !ps.isEmpty &&
  ps.all (fun p => !p.data.isEmpty && !(p.data.contains '|')) &&
  !stripSet.contains ((ps.headD "").data.headD ' ') &&
  !stripSet.contains ((ps.getLastD "").data.getLastD ' ')

/-! ## Sanity examples -/

example : validate_enc (.str "") = true := by decide
example : validate_enc (.str "ENC[AES256]") = true := by rfl
example : validate_enc (.str "plaintext") = false := by rfl
example : validate_enc (.num 12345) = false := by rfl
example : validate_enc (.list [.str "ENC[a]", .str ""]) = true := by rfl
example : validate_enc (.dict [("x", .str "ENC[a]"), ("y", .num 1)]) = false := by rfl

example : stripAndSplit "^(data|stringData)$" = ["data", "stringData"] := by rfl

example : extractRegexStr (mkSopsConfig "^(a|b)$") = some "^(a|b)$" := by rfl

example :
    check_file "t.json"
      (.ok (.dict [("sops", .dict []), ("a", .str "ENC[AES256]")])) .absent =
      .ok (true, "t.json: Valid encryption") := by rfl

example :
    check_file "t.json" (.ok (.dict [("a", .str "plaintext")])) .absent =
      .ok (false, "t.json: sops metadata key not found in file, is not properly encrypted") := by
  rfl

example :
    check_file "t.json"
      (.ok (.dict [("sops", .dict []), ("a", .str "plaintext"), ("b", .str "ENC[x]")]))
      .absent =
      .ok (false, "t.json: Unencrypted values found nested under keys: a") := by rfl

/-! ## Helper lemmas -/

theorem data_append (a b : String) : (a ++ b).data = a.data ++ b.data := rfl

theorem mk_data (s : String) : String.mk s.data = s := rfl

theorem validate_enc_all_eq (xs : List Value) :
    validate_enc_all xs = xs.all validate_enc := by
  induction xs with
  | nil => rfl
  | cons v vs ih => simp [validate_enc_all, ih]

theorem validate_enc_values_eq (kvs : List (String × Value)) :
    validate_enc_values kvs = kvs.all (fun p => validate_enc p.2) := by
  induction kvs with
  | nil => rfl
  | cons p ps ih => simp [validate_enc_values, ih]

theorem pyContains_dict (kvs : List (String × Value)) (s : String) :
    pyContains (.dict kvs) s = .ok (kvs.any (fun p => p.1 == s)) := rfl

/-- `check_file` only looks at the configuration through
`loadEncryptedRegex`. -/
theorem check_file_congr_cfg (fn : String) (fr : Except PyExn Value)
    (cfg cfg' : ConfigFile)
    (h : loadEncryptedRegex cfg = loadEncryptedRegex cfg') :
    check_file fn fr cfg = check_file fn fr cfg' := by
  unfold check_file
  rw [h]

/-- Every configuration state in `ConfigSwallowed` yields an empty
`encrypted_regex`. -/
theorem loadEncryptedRegex_swallowed (cfg : ConfigFile)
    (h : ConfigSwallowed cfg) : loadEncryptedRegex cfg = .ok [] := by
  match cfg with
  | .absent => rfl
  | .present (.error e) =>
    simp only [ConfigSwallowed] at h
    simp [loadEncryptedRegex, h]
  | .present (.ok config) =>
    simp only [ConfigSwallowed] at h
    simp [loadEncryptedRegex, h]

/-! ## Claim C5 -/

/-- C5: for every successfully parsed mapping document lacking the
top-level key `"sops"`, and for every state of the key-filter
configuration, `check_file` returns a failing verdict whose message
names the file and says it is not properly encrypted — without looking
at any of the values. -/
theorem check_file_missing_sops_fails (filename : String)
    (kvs : List (String × Value)) (cfg : ConfigFile)
    (h : ∀ p ∈ kvs, p.1 ≠ "sops") :
    check_file filename (.ok (.dict kvs)) cfg =
      .ok (false, filename ++ ": sops metadata key not found in file, is not properly encrypted") := by
  have hany : (kvs.any (fun p => p.1 == "sops")) = false := by
    simp only [List.any_eq_false]
    intro p hp
    simpa using h p hp
  simp [check_file, pyContains_dict, hany]

/-- Witness for C5 at a concrete input. -/
theorem check_file_missing_sops_fails_witness :
    (∀ p ∈ [("a", Value.str "plaintext")], p.1 ≠ "sops") ∧
    check_file "t.json" (.ok (.dict [("a", Value.str "plaintext")])) .absent =
      .ok (false, "t.json: sops metadata key not found in file, is not properly encrypted") :=
  ⟨by decide, check_file_missing_sops_fails "t.json" _ .absent (by decide)⟩

/-! ## Claim C2

The `except ParserError:` clause of `check_file` only catches ruamel's
`ParserError`.  For a file whose name does not end in `.yaml` the
loader is `json.load`, whose parse failures are `json.JSONDecodeError`
— never a `ParserError` — so malformed JSON such as `{not valid}`
raises an uncaught exception instead of producing the
"Not valid JSON or YAML" verdict. -/

/-- C2 (code bug): for a non-`.yaml` file containing `{not valid}`,
`json.load` raises `json.JSONDecodeError`; `check_file` propagates it
instead of returning the false "Not valid JSON or YAML" verdict that
both the claim and the code's own message intend.  (A ruamel
`ParserError` — only possible for `.yaml` files — is the one exception
that does produce that verdict.) -/
theorem check_file_malformed_json_raises (cfg : ConfigFile) :
    check_file "test.json" (.error .jsonDecodeError) cfg = .error .jsonDecodeError ∧
    check_file "test.yaml" (.error .parserError) cfg =
      .ok (false, "test.yaml: Not valid JSON or YAML, is not properly encrypted") :=
  ⟨rfl, rfl⟩

/-! ## Claim C1 -/

/-- C1 (amended): loading the key-filter configuration is swallowed and
treated as "no filter configured" for every failure mode *except* one:
when `.sops.yaml` opens but `yaml.load` raises a `ParserError`,
`check_file` returns the failing verdict `".sops.yaml is not readable"`
for any document that passes the metadata-key test (aborting validation
of the file). -/
theorem check_file_config_failures :
    (∀ fn fr cfg, ConfigSwallowed cfg →
        check_file fn fr cfg = check_file fn fr .absent) ∧
    (∀ fn kvs, ("sops" ∈ kvs.map Prod.fst) →
        check_file fn (.ok (.dict kvs)) (.present (.error .parserError)) =
          .ok (false, sops_config ++ " is not readable")) := by
  constructor
  · intro fn fr cfg hsw
    exact check_file_congr_cfg fn fr cfg .absent (loadEncryptedRegex_swallowed cfg hsw)
  · intro fn kvs hsops
    have hany : (kvs.any (fun p => p.1 == "sops")) = true := by
      rw [List.any_eq_true]
      obtain ⟨p, hp, hp1⟩ := List.mem_map.mp hsops
      exact ⟨p, hp, by simp [hp1]⟩
    simp [check_file, pyContains_dict, hany, loadEncryptedRegex, isParserError]

/-- Witness for C1 at concrete inputs: a wrong-shaped configuration is
swallowed, and a `ParserError` configuration produces the
".sops.yaml is not readable" verdict. -/
theorem check_file_config_failures_witness :
    ConfigSwallowed (.present (.ok (.str "oops"))) ∧
    check_file "t.json" (.ok (.dict [("sops", .dict [])]))
        (.present (.ok (.str "oops"))) =
      check_file "t.json" (.ok (.dict [("sops", .dict [])])) .absent ∧
    ("sops" ∈ [("sops", Value.dict [])].map Prod.fst) ∧
    check_file "t.json" (.ok (.dict [("sops", .dict [])]))
        (.present (.error .parserError)) =
      .ok (false, sops_config ++ " is not readable") :=
  ⟨by simp [ConfigSwallowed, extractRegexStr, pyIndex],
   check_file_config_failures.1 "t.json" _ _
     (by simp [ConfigSwallowed, extractRegexStr, pyIndex]),
   by decide,
   check_file_config_failures.2 "t.json" _ (by decide)⟩

/-- C1 counterexample: the claim as stated (configuration load or parse
failures are *never* surfaced and never produce a failing verdict) is
false: a configuration file whose YAML parse raises a `ParserError`
makes `check_file` return a failing verdict for an otherwise valid
document. -/
theorem check_file_config_parsererror_cex :
    check_file "a.yaml" (.ok (.dict [("sops", .dict []), ("a", .str "ENC[x]")]))
        (.present (.error .parserError)) =
      .ok (false, ".sops.yaml is not readable") := by rfl

/-! ## Claim C10 -/

/-- C10 (amended): for non-mapping roots, `"sops" not in doc` is not a
key lookup: for a string root it is a substring test — a string
containing `sops` passes the metadata check — but the loop then
subscripts the string with a one-character string, raising an uncaught
`TypeError` (it does not validate the characters); for a sequence root
it is an element-membership test; for a number, boolean or null root
the membership test itself raises an uncaught `TypeError`, so
`check_file` is not total over structured values. -/
theorem check_file_nonmapping_roots :
    (∀ fn s cfg, charsContains "sops".data s.data = false →
        check_file fn (.ok (.str s)) cfg =
          .ok (false, fn ++ ": sops metadata key not found in file, is not properly encrypted")) ∧
    (∀ fn s, charsContains "sops".data s.data = true → s.data ≠ [] →
        check_file fn (.ok (.str s)) .absent = .error .typeError) ∧
    (∀ fn xs cfg, xs.all (fun x => !pyEqStr x "sops") = true →
        check_file fn (.ok (.list xs)) cfg =
          .ok (false, fn ++ ": sops metadata key not found in file, is not properly encrypted")) ∧
    (∀ fn n cfg, check_file fn (.ok (.num n)) cfg = .error .typeError) ∧
    (∀ fn b cfg, check_file fn (.ok (.bool b)) cfg = .error .typeError) ∧
    (∀ fn cfg, check_file fn (.ok .null) cfg = .error .typeError) := by
  refine ⟨?_, ?_, ?_, ?_, ?_, ?_⟩
  · intro fn s cfg h
    simp [check_file, pyContains, h]
  · intro fn s hc hne
    obtain ⟨c, rest, hs⟩ : ∃ c rest, s.data = c :: rest := by
      cases h : s.data with
      | nil => exact absurd h hne
      | cons c rest => exact ⟨c, rest, rfl⟩
    have hbeq : (String.mk [c] == "sops") = false := by
      rw [beq_eq_false_iff_ne]
      intro h
      have h2 : ([c] : List Char) = ['s', 'o', 'p', 's'] := congrArg String.data h
      simp at h2
    rw [hs] at hc
    simp [check_file, pyContains, hc, loadEncryptedRegex, pyIter, hs,
      collectInvalid, pyEqStr, hbeq, pyIndex]
  · intro fn xs cfg h
    have hany : (xs.any (fun v => pyEqStr v "sops")) = false := by
      rw [List.any_eq_false]
      intro x hx
      have := List.all_eq_true.mp h x hx
      simpa using this
    simp [check_file, pyContains, hany]
  · intro fn n cfg; rfl
  · intro fn b cfg; rfl
  · intro fn cfg; rfl

/-- Witness for C10 at concrete inputs. -/
theorem check_file_nonmapping_roots_witness :
    (charsContains "sops".data "hello".data = false ∧
      check_file "t.json" (.ok (.str "hello")) .absent =
        .ok (false, "t.json: sops metadata key not found in file, is not properly encrypted")) ∧
    (charsContains "sops".data "sopsx".data = true ∧ "sopsx".data ≠ [] ∧
      check_file "t.json" (.ok (.str "sopsx")) .absent = .error .typeError) ∧
    ([Value.num 1].all (fun x => !pyEqStr x "sops") = true ∧
      check_file "t.json" (.ok (.list [.num 1])) .absent =
        .ok (false, "t.json: sops metadata key not found in file, is not properly encrypted")) ∧
    check_file "t.json" (.ok (.num 7)) .absent = .error .typeError :=
  ⟨⟨by decide, check_file_nonmapping_roots.1 "t.json" "hello" .absent (by decide)⟩,
   ⟨by decide, by decide,
     check_file_nonmapping_roots.2.1 "t.json" "sopsx" (by decide) (by decide)⟩,
   ⟨by rfl, check_file_nonmapping_roots.2.2.1 "t.json" [.num 1] .absent (by rfl)⟩,
   check_file_nonmapping_roots.2.2.2.1 "t.json" 7 .absent⟩

/-- C10 counterexample: the claim says a plaintext string document
containing `sops` "is then validated character by character"; in fact
subscripting the string with the first iterated character raises an
uncaught `TypeError` — no verdict is produced at all. -/
theorem check_file_string_root_cex :
    check_file "test.json" (.ok (.str "sops and plaintext")) .absent =
      .error .typeError := by rfl

/-! ## Congruence machinery: replacing values of a mapping -/

theorem setKey_cons (p : String × Value) (rest : List (String × Value))
    (k : String) (v : Value) :
    setKey (p :: rest) k v =
      (if p.1 == k then (p.1, v) else p) :: setKey rest k v := rfl

theorem setKey_map_fst (kvs : List (String × Value)) (k : String) (v : Value) :
    (setKey kvs k v).map Prod.fst = kvs.map Prod.fst := by
  induction kvs with
  | nil => rfl
  | cons p rest ih =>
    rw [setKey_cons, List.map_cons, List.map_cons, ih]
    by_cases hp : (p.1 == k) <;> simp [hp]

theorem find?_setKey (kvs : List (String × Value)) (k : String) (v : Value)
    (t : String) (h : t ≠ k) :
    (setKey kvs k v).find? (fun p => p.1 == t) = kvs.find? (fun p => p.1 == t) := by
  induction kvs with
  | nil => rfl
  | cons p rest ih =>
    rw [setKey_cons, List.find?_cons, List.find?_cons]
    by_cases hb : (p.1 == t) = true
    · have hp1t : p.1 = t := eq_of_beq hb
      have hpk : (p.1 == k) = false := beq_eq_false_iff_ne.mpr (hp1t ▸ h)
      simp [hpk, hb]
    · have hb' : (p.1 == t) = false := by simpa using hb
      have hhead : ((if (p.1 == k) = true then (p.1, v) else p).1 == t) = false := by
        split
        · exact hb'
        · exact hb'
      simp only [hhead, hb']
      exact ih

theorem pyIndex_setKey (kvs : List (String × Value)) (k : String) (v : Value)
    (k₀ : Value) (h : pyEqStr k₀ k = false) :
    pyIndex (.dict (setKey kvs k v)) k₀ = pyIndex (.dict kvs) k₀ := by
  cases k₀ with
  | str t =>
    have ht : t ≠ k := by simpa [pyEqStr] using h
    simp [pyIndex, find?_setKey kvs k v t ht]
  | num n => rfl
  | bool b => rfl
  | null => rfl
  | list xs => rfl
  | dict kvs' => rfl

/-- `collectInvalid` only touches the document through `doc[k]`, and
only for keys that pass the filter. -/
theorem collectInvalid_congr (doc₁ doc₂ : Value) (er : List String)
    (ks : List Value)
    (h : ∀ k ∈ ks,
        (!pyEqStr k "sops" && (er.any (fun p => pyEqStr k p) || er.isEmpty)) = true →
        pyIndex doc₁ k = pyIndex doc₂ k) :
    collectInvalid doc₁ er ks = collectInvalid doc₂ er ks := by
  induction ks with
  | nil => rfl
  | cons k ks ih =>
    have ih' := ih (fun k' hk' => h k' (List.mem_cons_of_mem _ hk'))
    by_cases hc :
        (!pyEqStr k "sops" && (er.any (fun p => pyEqStr k p) || er.isEmpty)) = true
    · simp only [collectInvalid, hc, if_true]
      rw [h k (List.mem_cons_self k ks) hc, ih']
    · have hc' :
          (!pyEqStr k "sops" && (er.any (fun p => pyEqStr k p) || er.isEmpty)) = false := by
        simpa using hc
      simp only [collectInvalid, hc', Bool.false_eq_true, if_false]
      exact ih'

/-- `check_file` on two mapping documents with the same key sequence
and the same subscription results on checked keys. -/
theorem check_file_dict_congr (fn : String) (cfg : ConfigFile)
    (kvs kvs' : List (String × Value))
    (hkeys : kvs.map Prod.fst = kvs'.map Prod.fst)
    (hidx : ∀ er, loadEncryptedRegex cfg = .ok er →
        ∀ k ∈ kvs.map (fun p => Value.str p.1),
          (!pyEqStr k "sops" && (er.any (fun p => pyEqStr k p) || er.isEmpty)) = true →
          pyIndex (.dict kvs) k = pyIndex (.dict kvs') k) :
    check_file fn (.ok (.dict kvs)) cfg = check_file fn (.ok (.dict kvs')) cfg := by
  have hany : (kvs.any (fun p => p.1 == "sops")) = (kvs'.any (fun p => p.1 == "sops")) := by
    have h1 : ∀ l : List (String × Value),
        l.any (fun p => p.1 == "sops") = (l.map Prod.fst).any (fun t => t == "sops") := by
      intro l
      induction l with
      | nil => rfl
      | cons p rest ih => simp [ih]
    rw [h1, h1, hkeys]
  have hiter : kvs.map (fun p => Value.str p.1) = kvs'.map (fun p => Value.str p.1) := by
    have h1 : ∀ l : List (String × Value),
        l.map (fun p => Value.str p.1) = (l.map Prod.fst).map Value.str := by
      intro l
      induction l with
      | nil => rfl
      | cons p rest ih => simp [ih]
    rw [h1, h1, hkeys]
  unfold check_file
  simp only [pyContains_dict, hany]
  cases hs : kvs'.any (fun p => p.1 == "sops") with
  | false => rfl
  | true =>
    simp only [Bool.not_true, Bool.false_eq_true, if_false]
    cases hcfg : loadEncryptedRegex cfg with
    | error verdict => rfl
    | ok er =>
      simp only [pyIter]
      rw [show collectInvalid (Value.dict kvs) er (kvs.map (fun p => Value.str p.1)) =
            collectInvalid (Value.dict kvs') er (kvs'.map (fun p => Value.str p.1)) from by
        rw [← hiter]
        exact collectInvalid_congr _ _ er _ (hidx er hcfg)]

/-! ## Claim C7 -/

/-- C7: the value stored under the metadata key `"sops"` is never
subjected to the leaf-encryption check — replacing it with anything
leaves the verdict unchanged, for every configuration — and `"sops"`
itself can never appear among the collected offending keys. -/
theorem check_file_sops_value_exempt :
    (∀ fn kvs cfg v,
        check_file fn (.ok (.dict (setKey kvs "sops" v))) cfg =
          check_file fn (.ok (.dict kvs)) cfg) ∧
    (∀ doc er ks l, collectInvalid doc er ks = .ok l → Value.str "sops" ∉ l) := by
  constructor
  · intro fn kvs cfg v
    apply check_file_dict_congr fn cfg (setKey kvs "sops" v) kvs (setKey_map_fst kvs "sops" v)
    intro er _ k _ hcond
    have hk : pyEqStr k "sops" = false := by
      cases hx : pyEqStr k "sops" <;> simp [hx] at hcond ⊢
    exact pyIndex_setKey kvs "sops" v k hk
  · intro doc er ks
    induction ks with
    | nil =>
      intro l hl hmem
      cases hl
      cases hmem
    | cons k ks ih =>
      intro l hl
      by_cases hc :
          (!pyEqStr k "sops" && (er.any (fun p => pyEqStr k p) || er.isEmpty)) = true
      · simp only [collectInvalid, hc, if_true] at hl
        cases hidx : pyIndex doc k with
        | error e => rw [hidx] at hl; cases hl
        | ok v =>
          rw [hidx] at hl
          cases hrest : collectInvalid doc er ks with
          | error e => rw [hrest] at hl; cases hl
          | ok rest =>
            rw [hrest] at hl
            cases hl
            have hsops : k ≠ Value.str "sops" := by
              intro hk
              subst hk
              simp [pyEqStr] at hc
            cases hv : validate_enc v with
            | true =>
              simp only [hv, if_true]
              exact ih rest hrest
            | false =>
              simp only [hv, Bool.false_eq_true, if_false]
              intro hmem
              rcases List.mem_cons.mp hmem with heq | hmem'
              · exact hsops heq.symm
              · exact ih rest hrest hmem'
      · have hc' :
            (!pyEqStr k "sops" && (er.any (fun p => pyEqStr k p) || er.isEmpty)) = false := by
          simpa using hc
        simp only [collectInvalid, hc', Bool.false_eq_true, if_false] at hl
        exact ih l hl

/-- Witness for C7 at a concrete input. -/
theorem check_file_sops_value_exempt_witness :
    check_file "t.json"
        (.ok (.dict (setKey [("sops", Value.str "plaintext")] "sops" (Value.num 3))))
        .absent =
      check_file "t.json" (.ok (.dict [("sops", Value.str "plaintext")])) .absent ∧
    collectInvalid (.dict [("sops", Value.str "x"), ("a", Value.num 1)]) []
        [Value.str "sops", Value.str "a"] = .ok [Value.str "a"] ∧
    Value.str "sops" ∉ [Value.str "a"] :=
  ⟨check_file_sops_value_exempt.1 "t.json" _ .absent _,
   rfl,
   check_file_sops_value_exempt.2
     (.dict [("sops", Value.str "x"), ("a", Value.num 1)]) []
     [Value.str "sops", Value.str "a"] [Value.str "a"] rfl⟩

/-! ## Claim C8 -/

theorem find?_eq_of_nodup (kvs : List (String × Value)) (k : String) (v : Value)
    (hnd : (kvs.map Prod.fst).Nodup) (hmem : (k, v) ∈ kvs) :
    kvs.find? (fun p => p.1 == k) = some (k, v) := by
  induction kvs with
  | nil => cases hmem
  | cons q rest ih =>
    rw [List.map_cons, List.nodup_cons] at hnd
    obtain ⟨hq, hnd'⟩ := hnd
    rcases List.mem_cons.mp hmem with heq | hmem'
    · subst heq
      exact List.find?_cons_of_pos _ (by simp)
    · have hq1 : (q.1 == k) = false := by
        rw [beq_eq_false_iff_ne]
        intro he
        exact hq (he ▸ List.mem_map_of_mem Prod.fst hmem')
      rw [List.find?_cons_of_neg _ (by simp [hq1])]
      exact ih hnd' hmem'

/-- The collection loop over a mapping's own keys, characterized as a
filter over the entries, provided every key looks up to its own entry's
value. -/
theorem collectInvalid_dict (doc : Value) (er : List String)
    (sub : List (String × Value))
    (hlook : ∀ p ∈ sub, pyIndex doc (.str p.1) = .ok p.2) :
    collectInvalid doc er (sub.map (fun p => Value.str p.1)) =
      .ok ((sub.filter (isInvalidEntry er)).map (fun p => Value.str p.1)) := by
  induction sub with
  | nil => rfl
  | cons p rest ih =>
    have ih' := ih (fun q hq => hlook q (List.mem_cons_of_mem _ hq))
    rw [List.map_cons]
    by_cases hc : (!(p.1 == "sops") && (er.any (fun q => p.1 == q) || er.isEmpty)) = true
    · have hc' : (!pyEqStr (Value.str p.1) "sops" &&
          (er.any (fun q => pyEqStr (Value.str p.1) q) || er.isEmpty)) = true := by
        simpa [pyEqStr] using hc
      simp only [collectInvalid, hc', if_true]
      rw [hlook p (List.mem_cons_self p rest), ih', List.filter_cons]
      by_cases hv : validate_enc p.2 = true
      · have hinv : isInvalidEntry er p = false := by
          simp [isInvalidEntry, hv]
        simp [hinv, hv]
      · have hv' : validate_enc p.2 = false := by simpa using hv
        have hinv : isInvalidEntry er p = true := by
          simp only [isInvalidEntry, hv', Bool.not_false, Bool.and_true]
          exact hc
        simp [hinv, hv']
    · have hcf : (!(p.1 == "sops") && (er.any (fun q => p.1 == q) || er.isEmpty)) = false := by
        rw [Bool.eq_false_iff]
        exact hc
      have hc' : (!pyEqStr (Value.str p.1) "sops" &&
          (er.any (fun q => pyEqStr (Value.str p.1) q) || er.isEmpty)) = false := by
        simpa [pyEqStr] using hcf
      simp only [collectInvalid, hc', Bool.false_eq_true, if_false]
      rw [ih', List.filter_cons]
      have hinv : isInvalidEntry er p = false := by
        simp [isInvalidEntry, hcf]
      simp [hinv]

theorem joinKeys_fst (l : List (String × Value)) :
    joinKeys (l.map (fun p => Value.str p.1)) = .ok (l.map Prod.fst) := by
  induction l with
  | nil => rfl
  | cons p rest ih => simp [joinKeys, ih]

/-- C8: with the metadata key present and the configuration yielding
pattern list `er`, `check_file` succeeds iff no checked top-level key
fails the leaf rule, and otherwise fails with a message listing exactly
the failing keys, in the document's input order, comma-joined. -/
theorem check_file_verdict_characterization (fn : String)
    (kvs : List (String × Value)) (cfg : ConfigFile) (er : List String)
    (hcfg : loadEncryptedRegex cfg = .ok er)
    (hnd : (kvs.map Prod.fst).Nodup)
    (hsops : "sops" ∈ kvs.map Prod.fst) :
    check_file fn (.ok (.dict kvs)) cfg =
      (if ((kvs.filter (isInvalidEntry er)).map Prod.fst).isEmpty then
        .ok (true, fn ++ ": Valid encryption")
      else
        .ok (false, fn ++ ": Unencrypted values found nested under keys: "
          ++ String.intercalate "," ((kvs.filter (isInvalidEntry er)).map Prod.fst))) := by
  have hany : (kvs.any (fun p => p.1 == "sops")) = true := by
    rw [List.any_eq_true]
    obtain ⟨p, hp, hp1⟩ := List.mem_map.mp hsops
    exact ⟨p, hp, by simp [hp1]⟩
  have hlook : ∀ p ∈ kvs, pyIndex (.dict kvs) (.str p.1) = .ok p.2 := by
    intro p hp
    have hfind : kvs.find? (fun q => q.1 == p.1) = some (p.1, p.2) :=
      find?_eq_of_nodup kvs p.1 p.2 hnd (by simpa using hp)
    simp [pyIndex, hfind]
  unfold check_file
  simp only [pyContains_dict, hany, Bool.not_true, Bool.false_eq_true, if_false]
  rw [hcfg]
  simp only [pyIter]
  rw [collectInvalid_dict (.dict kvs) er kvs hlook]
  cases hl : kvs.filter (isInvalidEntry er) with
  | nil => simp
  | cons p rest =>
    simp only [List.map_cons, List.isEmpty_cons]
    rw [show (Value.str p.1 :: rest.map (fun p => Value.str p.1)) =
          ((p :: rest).map (fun p => Value.str p.1)) from rfl,
      joinKeys_fst]
    simp

/-- Witness for C8: scenario C of the specification —
`{"sops": {}, "a": "plaintext", "b": "ENC[x]"}` with no filter fails
listing only `a`. -/
theorem check_file_verdict_characterization_witness :
    loadEncryptedRegex .absent = .ok [] ∧
    (([("sops", Value.dict []), ("a", Value.str "plaintext"),
        ("b", Value.str "ENC[x]")].map Prod.fst).Nodup) ∧
    ("sops" ∈ [("sops", Value.dict []), ("a", Value.str "plaintext"),
        ("b", Value.str "ENC[x]")].map Prod.fst) ∧
    check_file "t.json"
        (.ok (.dict [("sops", .dict []), ("a", .str "plaintext"), ("b", .str "ENC[x]")]))
        .absent =
      (if (([("sops", Value.dict []), ("a", Value.str "plaintext"),
              ("b", Value.str "ENC[x]")].filter (isInvalidEntry [])).map Prod.fst).isEmpty then
        .ok (true, "t.json" ++ ": Valid encryption")
      else
        .ok (false, "t.json" ++ ": Unencrypted values found nested under keys: "
          ++ String.intercalate ","
            (([("sops", Value.dict []), ("a", Value.str "plaintext"),
                ("b", Value.str "ENC[x]")].filter (isInvalidEntry [])).map Prod.fst))) :=
  ⟨rfl, by decide, by decide,
   check_file_verdict_characterization "t.json" _ .absent [] rfl (by decide) (by decide)⟩

/-! ## Claim C3 -/

/-- C3 (amended): when a filter is configured (a nonempty pattern
list), a top-level key is checked iff it is *literally equal* to one of
the pattern strings — membership, not regular-expression matching.  A
key equal to no pattern is skipped entirely: its value can be replaced
by anything without changing the verdict.  The claim's concrete
narrowing scenario does hold: with filter `^(data)$`, the document
`{sops: {}, data: {x: "ENC[AES256]"}, other: 12345}` validates. -/
theorem check_file_filter_literal_membership :
    (∀ fn kvs cfg er k v,
        loadEncryptedRegex cfg = .ok er → er ≠ [] → k ∉ er →
        check_file fn (.ok (.dict (setKey kvs k v))) cfg =
          check_file fn (.ok (.dict kvs)) cfg) ∧
    check_file "t.json"
        (.ok (.dict [("sops", .dict []),
          ("data", .dict [("x", .str "ENC[AES256]")]), ("other", .num 12345)]))
        (.present (.ok (mkSopsConfig "^(data)$"))) =
      .ok (true, "t.json: Valid encryption") := by
  constructor
  · intro fn kvs cfg er k v hcfg hne hnotin
    apply check_file_dict_congr fn cfg (setKey kvs k v) kvs (setKey_map_fst kvs k v)
    intro er' hcfg' k₀ _ hcond
    rw [hcfg] at hcfg'
    injection hcfg' with h2
    subst h2
    apply pyIndex_setKey
    cases k₀ with
    | str t =>
      have hor : (er.any (fun p => pyEqStr (Value.str t) p) || er.isEmpty) = true := by
        cases hx : (er.any (fun p => pyEqStr (Value.str t) p) || er.isEmpty)
        · rw [hx] at hcond
          simp at hcond
        · rfl
      have hempty : er.isEmpty = false := by
        cases her : er with
        | nil => exact absurd her hne
        | cons a l => rfl
      rw [hempty, Bool.or_false] at hor
      obtain ⟨q, hq, htq⟩ := List.any_eq_true.mp hor
      have htq' : t = q := by simpa [pyEqStr] using htq
      have htk : t ≠ k := fun hh => hnotin (hh ▸ htq' ▸ hq)
      simpa [pyEqStr] using htk
    | num n => rfl
    | bool b => rfl
    | null => rfl
    | list xs => rfl
    | dict kvs' => rfl
  · rfl

/-- Witness for C3 at a concrete input: with filter `^(data)$`, the
value under the unmatched key `other` is irrelevant to the verdict. -/
theorem check_file_filter_literal_membership_witness :
    loadEncryptedRegex (.present (.ok (mkSopsConfig "^(data)$"))) = .ok ["data"] ∧
    (["data"] : List String) ≠ [] ∧
    "other" ∉ (["data"] : List String) ∧
    check_file "t.json"
        (.ok (.dict (setKey [("sops", Value.dict []), ("other", Value.num 1)]
          "other" (Value.str "anything"))))
        (.present (.ok (mkSopsConfig "^(data)$"))) =
      check_file "t.json"
        (.ok (.dict [("sops", Value.dict []), ("other", Value.num 1)]))
        (.present (.ok (mkSopsConfig "^(data)$"))) :=
  ⟨rfl, by decide, by decide,
   check_file_filter_literal_membership.1 "t.json" _ _ ["data"] "other"
     (Value.str "anything") rfl (by decide) (by decide)⟩

/-- C3 counterexample: the configured patterns are *not* treated as
regular expressions.  With the configured regex `^(.*)$` — whose single
pattern `.*` matches every key under regex semantics, so the claim
predicts that the plaintext key `a` is checked and the file fails — the
code tests literal membership `"a" ∈ [".*"]`, skips the key, and
accepts the file. -/
theorem check_file_filter_not_regex_cex :
    loadEncryptedRegex (.present (.ok (mkSopsConfig "^(.*)$"))) = .ok [".*"] ∧
    check_file "t.json"
        (.ok (.dict [("sops", .dict []), ("a", .str "plaintext")]))
        (.present (.ok (mkSopsConfig "^(.*)$"))) =
      .ok (true, "t.json: Valid encryption") :=
  ⟨rfl, rfl⟩

/-! ## Claim C4 -/

/-- C4 (amended): when `check_file` completes without an uncaught
exception on every file, `main` processes every file, prints exactly
one line per failing file (that file's verdict message; nothing on full
success) and returns `1` if at least one file failed, `0` otherwise.
(A file on which `check_file` raises — a missing file, or a parse
failure other than ruamel's `ParserError` — aborts the whole run
instead; see the counterexample.) -/
theorem main_processes_all_when_no_exception (cfg : ConfigFile)
    (files : List (String × Except PyExn Value))
    (h : ∀ fr ∈ files, ∃ r, check_file fr.1 fr.2 cfg = .ok r) :
    main cfg files =
      .ok (failedMessages cfg files,
        if (failedMessages cfg files).isEmpty then 0 else 1) := by
  have hrun : runFiles cfg files = .ok (failedMessages cfg files) := by
    induction files with
    | nil => rfl
    | cons fr rest ih =>
      obtain ⟨⟨b, m⟩, hb⟩ := h fr (List.mem_cons_self fr rest)
      have ih' := ih (fun fr' h' => h fr' (List.mem_cons_of_mem _ h'))
      simp only [runFiles]
      rw [hb, ih']
      simp only [failedMessages, List.filterMap_cons] at *
      rw [hb]
      cases b
      · rfl
      · rfl
  simp only [main, hrun]

/-- Witness for C4 at a concrete two-file input (one passing, one
failing): both files are processed, the failing file's message is the
single stdout line, and the return code is 1. -/
theorem main_processes_all_witness :
    (∀ fr ∈ ([("g.json", Except.ok (Value.dict [("sops", Value.dict [])])),
        ("b.json", Except.ok (Value.dict [("a", Value.str "x")]))] :
          List (String × Except PyExn Value)),
      ∃ r, check_file fr.1 fr.2 .absent = .ok r) ∧
    main .absent
        [("g.json", Except.ok (Value.dict [("sops", Value.dict [])])),
         ("b.json", Except.ok (Value.dict [("a", Value.str "x")]))] =
      .ok (failedMessages .absent
        [("g.json", Except.ok (Value.dict [("sops", Value.dict [])])),
         ("b.json", Except.ok (Value.dict [("a", Value.str "x")]))],
        if (failedMessages .absent
          [("g.json", Except.ok (Value.dict [("sops", Value.dict [])])),
           ("b.json", Except.ok (Value.dict [("a", Value.str "x")]))]).isEmpty
        then 0 else 1) :=
  have hyp : ∀ fr ∈ ([("g.json", Except.ok (Value.dict [("sops", Value.dict [])])),
      ("b.json", Except.ok (Value.dict [("a", Value.str "x")]))] :
        List (String × Except PyExn Value)),
      ∃ r, check_file fr.1 fr.2 .absent = .ok r := by
    intro fr hfr
    rcases List.mem_cons.mp hfr with rfl | hfr'
    · exact ⟨(true, "g.json: Valid encryption"), rfl⟩
    rcases List.mem_cons.mp hfr' with rfl | hfr''
    · exact ⟨(false, "b.json: sops metadata key not found in file, is not properly encrypted"), rfl⟩
    cases hfr''
  ⟨hyp, main_processes_all_when_no_exception .absent _ hyp⟩

/-- C4 counterexample: a missing file aborts the whole run.  `main`
with a missing first file propagates the uncaught `FileNotFoundError`
instead of continuing with the second (perfectly valid) file, printing
its message, and returning an exit code. -/
theorem main_missing_file_aborts_cex :
    main .absent
        [("missing.json", .error .fileNotFoundError),
         ("good.json", .ok (.dict [("sops", .dict [])]))] =
      .error .fileNotFoundError := by rfl

/-! ## Claim C6 -/

theorem sizeOf_lt_of_mem_list {v : Value} {xs : List Value} (h : v ∈ xs) :
    sizeOf v < sizeOf (Value.list xs) := by
  have h1 : sizeOf v < sizeOf xs := List.sizeOf_lt_of_mem h
  simp only [Value.list.sizeOf_spec]
  omega

theorem sizeOf_snd_lt_of_mem_dict {p : String × Value}
    {kvs : List (String × Value)} (h : p ∈ kvs) :
    sizeOf p.2 < sizeOf (Value.dict kvs) := by
  have h1 : sizeOf p < sizeOf kvs := List.sizeOf_lt_of_mem h
  have h2 : sizeOf p.2 < sizeOf p := by
    obtain ⟨a, b⟩ := p
    simp only [Prod.mk.sizeOf_spec]
    omega
  simp only [Value.dict.sizeOf_spec]
  omega

/-- C6: `validate_enc v` holds iff `v` satisfies the specification's
leaf rule (`SpecEnc`): a string that is empty or begins with `ENC[`, a
sequence all of whose elements recursively satisfy it, or a mapping all
of whose values recursively satisfy it; numbers, booleans and null
always fail.  In particular the empty string always passes. -/
theorem validate_enc_iff_spec (v : Value) : validate_enc v = true ↔ SpecEnc v := by
  have H : ∀ n (v : Value), sizeOf v ≤ n → (validate_enc v = true ↔ SpecEnc v) := by
    intro n
    induction n with
    | zero =>
      intro v hv
      exfalso
      cases v <;> simp_arith at hv
    | succ n ih =>
      intro v hv
      cases v with
      | str s =>
        constructor
        · intro h
          rcases Bool.or_eq_true_iff.mp h with h1 | h2
          · have hs : s = "" := String.ext (List.isEmpty_iff.mp h1)
            exact hs ▸ SpecEnc.empty_str
          · apply SpecEnc.marked_str
            obtain ⟨t, ht⟩ := List.isPrefixOf_iff_prefix.mp h2
            refine ⟨String.mk t, String.ext ?_⟩
            rw [data_append]
            exact ht.symm
        · intro h
          cases h with
          | empty_str => rfl
          | marked_str s hex =>
            obtain ⟨rest, hrest⟩ := hex
            subst hrest
            show (("ENC[" ++ rest).data.isEmpty
              || "ENC[".data.isPrefixOf ("ENC[" ++ rest).data) = true
            apply Bool.or_eq_true_iff.mpr
            right
            rw [data_append]
            exact List.isPrefixOf_iff_prefix.mpr ⟨rest.data, rfl⟩
      | num m =>
        constructor
        · intro h; exact absurd h (by simp [validate_enc])
        · intro h; cases h
      | bool b =>
        constructor
        · intro h; exact absurd h (by simp [validate_enc])
        · intro h; cases h
      | null =>
        constructor
        · intro h; exact absurd h (by simp [validate_enc])
        · intro h; cases h
      | list xs =>
        rw [show validate_enc (.list xs) = validate_enc_all xs from rfl,
          validate_enc_all_eq, List.all_eq_true]
        constructor
        · intro h
          exact SpecEnc.seq xs (fun w hw =>
            (ih w (by have := sizeOf_lt_of_mem_list hw; omega)).mp (h w hw))
        · intro h
          cases h with
          | seq _ hall =>
            intro w hw
            exact (ih w (by have := sizeOf_lt_of_mem_list hw; omega)).mpr (hall w hw)
      | dict kvs =>
        rw [show validate_enc (.dict kvs) = validate_enc_values kvs from rfl,
          validate_enc_values_eq, List.all_eq_true]
        constructor
        · intro h
          exact SpecEnc.map kvs (fun p hp =>
            (ih p.2 (by have := sizeOf_snd_lt_of_mem_dict hp; omega)).mp (h p hp))
        · intro h
          cases h with
          | map _ hall =>
            intro p hp
            exact (ih p.2 (by have := sizeOf_snd_lt_of_mem_dict hp; omega)).mpr (hall p hp)
  exact H (sizeOf v) v (Nat.le_refl _)

/-! ## Claim C9 -/

theorem splitPipe_ne_nil (cs : List Char) : splitPipe cs ≠ [] := by
  induction cs with
  | nil => simp [splitPipe]
  | cons c cs ih =>
    simp only [splitPipe]
    cases h : splitPipe cs with
    | nil => exact absurd h ih
    | cons g gs => by_cases hc : c = '|' <;> simp [hc]

theorem splitPipe_no_pipe (l : List Char) (h : '|' ∉ l) : splitPipe l = [l] := by
  induction l with
  | nil => rfl
  | cons c cs ih =>
    have hc : c ≠ '|' := fun hh => h (hh ▸ List.mem_cons_self c cs)
    have hcs : '|' ∉ cs := fun hh => h (List.mem_cons_of_mem _ hh)
    simp only [splitPipe, ih hcs]
    rw [if_neg hc]

theorem splitPipe_cons_pipe (t : List Char) : splitPipe ('|' :: t) = [] :: splitPipe t := by
  simp only [splitPipe]
  cases h : splitPipe t with
  | nil => exact absurd h (splitPipe_ne_nil t)
  | cons g gs => simp

theorem splitPipe_append_no_pipe (p t : List Char) (hp : '|' ∉ p) :
    splitPipe (p ++ t) = (p ++ (splitPipe t).headD []) :: (splitPipe t).tail := by
  induction p with
  | nil =>
    simp only [List.nil_append]
    cases h : splitPipe t with
    | nil => exact absurd h (splitPipe_ne_nil t)
    | cons g gs => simp
  | cons c p ih =>
    have hc : c ≠ '|' := fun hh => hp (hh ▸ List.mem_cons_self c p)
    have hp' : '|' ∉ p := fun hh => hp (List.mem_cons_of_mem _ hh)
    simp only [List.cons_append, splitPipe, List.append_eq, ih hp']
    rw [if_neg hc]

theorem pipeJoin_data_cons (p q : String) (rest : List String) :
    (pipeJoin (p :: q :: rest)).data = p.data ++ '|' :: (pipeJoin (q :: rest)).data := by
  show (p ++ "|" ++ pipeJoin (q :: rest)).data = _
  rw [data_append, data_append]
  simp

theorem splitPipe_pipeJoin (ps : List String)
    (hp : ∀ p ∈ ps, '|' ∉ p.data) (hne : ps ≠ []) :
    splitPipe (pipeJoin ps).data = ps.map String.data := by
  induction ps with
  | nil => exact absurd rfl hne
  | cons p rest ih =>
    cases rest with
    | nil =>
      show splitPipe p.data = [p.data]
      exact splitPipe_no_pipe p.data (hp p (List.mem_cons_self _ _))
    | cons q rest' =>
      rw [pipeJoin_data_cons,
        splitPipe_append_no_pipe _ _ (hp p (List.mem_cons_self _ _)),
        splitPipe_cons_pipe,
        ih (fun r hr => hp r (List.mem_cons_of_mem _ hr)) (by simp)]
      simp

theorem pyStrip_wrap (l : List Char) (hne : l ≠ [])
    (ha : stripSet.contains (l.headD ' ') = false)
    (hb : stripSet.contains (l.getLastD ' ') = false) :
    pyStrip ('^' :: '(' :: (l ++ [')', '$'])) = l := by
  obtain ⟨a, m, rfl⟩ : ∃ a m, l = a :: m := by
    cases l with
    | nil => exact absurd rfl hne
    | cons a m => exact ⟨a, m, rfl⟩
  obtain ⟨init, b, hcat⟩ : ∃ init b, a :: m = init ++ [b] := by
    rcases List.eq_nil_or_concat (a :: m) with h | ⟨init, b, h⟩
    · simp at h
    · exact ⟨init, b, by simpa [List.concat_eq_append] using h⟩
  have ha' : a ∉ stripSet := by
    have h0 : stripSet.contains a = false := by simpa using ha
    simpa using h0
  have hb' : b ∉ stripSet := by
    have hg : (a :: m).getLastD ' ' = b := by
      rw [hcat, List.getLastD_concat]
    have h0 : stripSet.contains b = false := by rwa [hg] at hb
    simpa using h0
  have hcar : '^' ∈ stripSet := by decide
  have hlpar : '(' ∈ stripSet := by decide
  have hdollar : '$' ∈ stripSet := by decide
  have hrpar : ')' ∈ stripSet := by decide
  unfold pyStrip
  have h1 : List.dropWhile (fun c => stripSet.contains c)
      ('^' :: '(' :: ((a :: m) ++ [')', '$'])) = (a :: m) ++ [')', '$'] := by
    simp [List.dropWhile_cons, hcar, hlpar, ha']
  rw [h1, hcat]
  simp [List.reverse_append, List.dropWhile_cons, hdollar, hrpar, hb']

theorem map_mk_data (ps : List String) : (ps.map String.data).map String.mk = ps := by
  induction ps with
  | nil => rfl
  | cons p rest ih => simp [ih, mk_data]

theorem pipeJoin_data_ne_nil (p : String) (rest : List String)
    (hp : p.data ≠ []) : (pipeJoin (p :: rest)).data ≠ [] := by
  cases rest with
  | nil => exact hp
  | cons q rest' =>
    rw [pipeJoin_data_cons]
    intro h
    have := congrArg List.length h
    simp at this

theorem pipeJoin_headD (p : String) (rest : List String) (hp : p.data ≠ []) :
    (pipeJoin (p :: rest)).data.headD ' ' = p.data.headD ' ' := by
  cases rest with
  | nil => rfl
  | cons q rest' =>
    rw [pipeJoin_data_cons]
    cases hd : p.data with
    | nil => exact absurd hd hp
    | cons c cs => simp [hd]

theorem pipeJoin_getLastD (ps : List String) (hps : ∀ p ∈ ps, p.data ≠ []) :
    ∀ p rest, ps = p :: rest →
      (pipeJoin ps).data.getLastD ' ' = ((ps.getLastD "").data).getLastD ' ' := by
  induction ps with
  | nil => intro p rest h; cases h
  | cons q qs ih =>
    intro p rest h
    cases qs with
    | nil => rfl
    | cons r rs =>
      have hstep := ih (fun x hx => hps x (List.mem_cons_of_mem _ hx)) r rs rfl
      rw [pipeJoin_data_cons]
      have hnn : (pipeJoin (r :: rs)).data ≠ [] :=
        pipeJoin_data_ne_nil r rs (hps r (by simp))
      rw [List.getLastD_eq_getLast?, List.getLast?_append]
      rw [List.getLastD_eq_getLast?] at hstep
      have hcons : ('|' :: (pipeJoin (r :: rs)).data).getLast? =
          (pipeJoin (r :: rs)).data.getLast? := by
        cases hj : (pipeJoin (r :: rs)).data with
        | nil => exact absurd hj hnn
        | cons x xs => simp [hj, List.getLast?_cons_cons]
      rw [hcons]
      cases hl : (pipeJoin (r :: rs)).data.getLast? with
      | none =>
        exact absurd (List.getLast?_eq_none_iff.mp hl) hnn
      | some x =>
        simp only [Option.or_some, Option.getD_some]
        rw [hl] at hstep
        simp only [Option.getD_some] at hstep
        rw [hstep]
        simp [List.getLastD_cons]

/-- C9 (amended): for a configuration regex of the exact form
`^(p1|...|pn)$`, provided each pattern is nonempty and pipe-free, the
first pattern does not begin with one of the stripped characters
`' ^ ( ) $` and the last does not end with one, the loader recovers
exactly `[p1, ..., pn]`.  (Without these side conditions the claim
fails: `.strip("'$^()")` removes *any* run of those characters from
both ends, not just the `^(`/`)$` wrapper — see the counterexample.) -/
theorem loader_splits_wrapped_patterns (ps : List String)
    (h : goodPatterns ps = true) :
    loadEncryptedRegex (.present (.ok (mkSopsConfig ("^(" ++ pipeJoin ps ++ ")$")))) =
      .ok ps := by
  have hparts := h
  simp only [goodPatterns, Bool.and_eq_true] at hparts
  obtain ⟨⟨⟨hne', hall⟩, hhead⟩, hlast⟩ := hparts
  have hne : ps ≠ [] := by
    cases ps with
    | nil => simp at hne'
    | cons p rest => simp
  obtain ⟨p, rest, rfl⟩ : ∃ p rest, ps = p :: rest := by
    cases ps with
    | nil => exact absurd rfl hne
    | cons p rest => exact ⟨p, rest, rfl⟩
  have hall' : ∀ q ∈ p :: rest, q.data ≠ [] ∧ '|' ∉ q.data := by
    intro q hq
    have := List.all_eq_true.mp hall q hq
    simp only [Bool.and_eq_true, Bool.not_eq_true'] at this
    obtain ⟨h1, h2⟩ := this
    refine ⟨by simpa using h1, ?_⟩
    intro hmem
    rw [← List.elem_iff] at hmem
    rw [show (List.contains q.data '|') = List.elem '|' q.data from rfl] at h2
    rw [hmem] at h2
    cases h2
  have hdata : ("^(" ++ pipeJoin (p :: rest) ++ ")$").data =
      '^' :: '(' :: ((pipeJoin (p :: rest)).data ++ [')', '$']) := by
    rw [data_append, data_append,
      show ("^(" : String).data = ['^', '('] from rfl,
      show (")$" : String).data = [')', '$'] from rfl]
    simp
  have hstrip : pyStrip (("^(" ++ pipeJoin (p :: rest) ++ ")$").data) =
      (pipeJoin (p :: rest)).data := by
    rw [hdata]
    apply pyStrip_wrap
    · exact pipeJoin_data_ne_nil p rest (hall' p (by simp)).1
    · rw [pipeJoin_headD p rest (hall' p (by simp)).1]
      simpa using hhead
    · rw [pipeJoin_getLastD (p :: rest) (fun q hq => (hall' q hq).1) p rest rfl]
      simpa using hlast
  have hsplit : splitPipe (pipeJoin (p :: rest)).data =
      (p :: rest).map String.data :=
    splitPipe_pipeJoin (p :: rest) (fun q hq => (hall' q hq).2) (by simp)
  have hextract : extractRegexStr
      (mkSopsConfig ("^(" ++ pipeJoin (p :: rest) ++ ")$")) =
      some ("^(" ++ pipeJoin (p :: rest) ++ ")$") := rfl
  simp only [loadEncryptedRegex, hextract, stripAndSplit, hstrip, hsplit,
    map_mk_data]

/-- Witness for C9 at the concrete pattern list `["data", "stringData"]`. -/
theorem loader_splits_wrapped_patterns_witness :
    goodPatterns ["data", "stringData"] = true ∧
    loadEncryptedRegex
        (.present (.ok (mkSopsConfig
          ("^(" ++ pipeJoin ["data", "stringData"] ++ ")$")))) =
      .ok ["data", "stringData"] :=
  ⟨by decide, loader_splits_wrapped_patterns ["data", "stringData"] (by decide)⟩

/-- C9 counterexample: the loader does not strip "exactly the leading
`^(` and trailing `)$`".  For the pattern list `["(a)", "b"]` — regex
string `^((a)|b)$` — Python's `.strip("'$^()")` also eats the
pattern's own leading parenthesis, yielding `["a)", "b"]` instead of
the claimed `["(a)", "b"]`. -/
theorem loader_strip_not_exact_cex :
    loadEncryptedRegex
        (.present (.ok (mkSopsConfig ("^(" ++ pipeJoin ["(a)", "b"] ++ ")$")))) =
      .ok ["a)", "b"] ∧ (["a)", "b"] : List String) ≠ ["(a)", "b"] :=
  ⟨rfl, by decide⟩

end EnsureSops
